import Mathlib

/-!
Verification development for the Taiwanese-law ingestion pipeline.

Strings are modelled as `List Char`.  Each definition below is a direct
shallow embedding of the corresponding TypeScript function from the
repository (`src/lib/parser.ts`-style helpers, `src/lib/fetcher.ts`, and
the ingestion script's `buildTargets`).  JavaScript runtime behaviour
(the `\s` whitespace class, `String.prototype.trim`, V8's rejection of
out-of-range days in ISO date strings, stable `Array.prototype.sort`)
is modelled explicitly where the code relies on it.
-/

set_option maxRecDepth 8000

namespace TaiwanLaw

/-- JavaScript's `\s` character class (also the set stripped by
`String.prototype.trim` / `trimEnd`): ASCII whitespace, NBSP, and the
Unicode space separators recognised by ECMAScript. -/
def jsWs (c : Char) : Bool :=
  let n := c.toNat
  n = 0x20 || n = 0x09 || n = 0x0a || n = 0x0d || n = 0x0b || n = 0x0c ||
  n = 0xa0 || n = 0x1680 || (0x2000 ≤ n && n ≤ 0x200a) ||
  n = 0x2028 || n = 0x2029 || n = 0x202f || n = 0x205f || n = 0x3000 ||
  n = 0xfeff

def isDigitCh (c : Char) : Bool := '0' ≤ c && c ≤ '9'

def isAlphaNumCh (c : Char) : Bool :=
  ('0' ≤ c && c ≤ '9') || ('A' ≤ c && c ≤ 'Z') || ('a' ≤ c && c ≤ 'z')

def asciiToLower (c : Char) : Char :=
  if 'A' ≤ c ∧ c ≤ 'Z' then Char.ofNat (c.toNat + 32) else c

def asciiToUpper (c : Char) : Char :=
  if 'a' ≤ c ∧ c ≤ 'z' then Char.ofNat (c.toNat - 32) else c

/-- Drop trailing characters satisfying `p` (used for `trimEnd` / `trim`). -/
def dropTrailing (p : Char → Bool) (l : List Char) : List Char :=
  (l.reverse.dropWhile p).reverse

/-- JavaScript `String.prototype.trim`. -/
def trimJs (l : List Char) : List Char :=
  dropTrailing jsWs (l.dropWhile jsWs)

/-- JavaScript `String.prototype.trimEnd`. -/
def trimEndJs (l : List Char) : List Char :=
  dropTrailing jsWs l

/-- `text.split('\n')`. -/
def splitLines : List Char → List (List Char)
  | [] => [[]]
  | '\n' :: rest => [] :: splitLines rest
  | c :: rest =>
    match splitLines rest with
    | [] => [[c]]
    | l :: ls => (c :: l) :: ls

/-- `lines.join('\n')`. -/
def joinLines (ls : List (List Char)) : List Char :=
  List.intercalate ['\n'] ls

/-- `text.replace(/\r\n/g, '\n')` (left-to-right, non-overlapping). -/
def replaceCRLF : List Char → List Char
  | '\r' :: '\n' :: rest => '\n' :: replaceCRLF rest
  | c :: rest => c :: replaceCRLF rest
  | [] => []

/-- Source `normalizeText`: CRLF→LF, NBSP→space, `trimEnd` each line,
rejoin, `trim` the whole. -/
def normalizeText (text : List Char) : List Char :=
  trimJs (joinLines
    (List.map trimEndJs
      (splitLines
        ((replaceCRLF text).map (fun c => if c.toNat = 0xa0 then ' ' else c)))))

/-- One pass of `text.replace(/\s+/g, ' ')`: each maximal whitespace run
becomes a single plain space.  `prevWs` records whether the previous
character belonged to a run already replaced. -/
def collapseGo : Bool → List Char → List Char
  | _, [] => []
  | prevWs, c :: rest =>
    if jsWs c then
      if prevWs then collapseGo true rest
      else ' ' :: collapseGo true rest
    else c :: collapseGo false rest

/-- Source `normalizeLooseWhitespace`: `text.replace(/\s+/g, ' ').trim()`. -/
def normalizeLooseWhitespace (text : List Char) : List Char :=
  trimJs (collapseGo false text)

/-- `needle` is a prefix of `hay`. -/
def startsWithSeq : List Char → List Char → Bool
  | _, [] => true
  | [], _ :: _ => false
  | c :: cs, d :: ds => c = d && startsWithSeq cs ds

/-- JavaScript `hay.includes(needle)`. -/
def containsSeq (hay needle : List Char) : Bool :=
  if startsWithSeq hay needle then true
  else
    match hay with
    | [] => false
    | _ :: t => containsSeq t needle

/-- `Number.parseInt` on a list of decimal digits. -/
def digitsToNat (l : List Char) : Nat :=
  l.foldl (fun acc c => acc * 10 + (c.toNat - 48)) 0

/-- Source `parseDateToIso`: `undefined` and the empty string give no
date; otherwise the trimmed value must match `/^\d{8}$/` and pass
`year ≥ 1900, 1 ≤ month ≤ 12, 1 ≤ day ≤ 31`; the result is
`YYYY-MM-DD` assembled from the same digit slices. -/
def parseDateToIso : Option (List Char) → Option (List Char)
  | none => none
  | some raw =>
    if raw = [] then none
    else
      let cleaned := trimJs raw
      if cleaned.length = 8 ∧ cleaned.all isDigitCh then
        let year := digitsToNat (cleaned.take 4)
        let month := digitsToNat ((cleaned.drop 4).take 2)
        let day := digitsToNat ((cleaned.drop 6).take 2)
        if 1900 ≤ year ∧ 1 ≤ month ∧ month ≤ 12 ∧ 1 ≤ day ∧ day ≤ 31 then
          some (cleaned.take 4 ++ '-' :: (cleaned.drop 4).take 2 ++
                '-' :: (cleaned.drop 6).take 2)
        else none
      else none

def isLeapYear (y : Nat) : Bool :=
  y % 4 = 0 && (y % 100 ≠ 0 || y % 400 = 0)

def daysInMonth (y m : Nat) : Nat :=
  if m = 2 then (if isLeapYear y then 29 else 28)
  else if m = 4 ∨ m = 6 ∨ m = 9 ∨ m = 11 then 30
  else 31

/-- Validity of `new Date("YYYY-MM-DDT00:00:00Z")` under V8's ISO-format
parser, which rejects out-of-range day components (e.g. `2099-02-31`
is an Invalid Date in Node).  Only the exact 10-character shape emitted
by `parseDateToIso` is recognised; the result is the (year, month, day)
triple of the UTC-midnight instant. -/
def jsDateFromIso : List Char → Option (Nat × Nat × Nat)
  | [y1, y2, y3, y4, '-', m1, m2, '-', d1, d2] =>
    let y := digitsToNat [y1, y2, y3, y4]
    let m := digitsToNat [m1, m2]
    let d := digitsToNat [d1, d2]
    if d ≤ daysInMonth y m then some (y, m, d) else none
  | _ => none

/-- Source `parseDate`: `parseDateToIso` then `new Date(iso + "T00:00:00Z")`,
returning nothing when the `Date` is invalid. -/
def parseDate (raw : Option (List Char)) : Option (Nat × Nat × Nat) :=
  match parseDateToIso raw with
  | none => none
  | some iso => jsDateFromIso iso

/-- Day-granularity comparison of two (year, month, day) triples. -/
def dateLt (a b : Nat × Nat × Nat) : Bool :=
  a.1 < b.1 || (a.1 = b.1 && (a.2.1 < b.2.1 || (a.2.1 = b.2.1 && a.2.2 < b.2.2)))

/-- `OpenApiLawArticle`.  `ArticleNo` / `ArticleContent` are optional
because the code guards each use with `?? `. -/
structure OpenApiLawArticle where
  ArticleType : List Char
  ArticleNo : Option (List Char)
  ArticleContent : Option (List Char)
deriving DecidableEq

/-- `OpenApiLawRecord`. -/
structure OpenApiLawRecord where
  LawName : List Char
  EngLawName : Option (List Char)
  LawURL : List Char
  LawCategory : Option (List Char)
  LawModifiedDate : Option (List Char)
  LawEffectiveDate : Option (List Char)
  LawEffectiveNote : Option (List Char)
  LawAbandonNote : Option (List Char)
  LawArticles : List OpenApiLawArticle
deriving DecidableEq

inductive LawStatus where
  | in_force
  | amended
  | repealed
  | not_yet_in_force
deriving DecidableEq

/-- The sentinel effective date `"99991231"`. -/
def sentinelDate : List Char := "99991231".data

/-- `record.LawAbandonNote && record.LawAbandonNote.trim()` is truthy. -/
def abandonNoteTruthy (record : OpenApiLawRecord) : Bool :=
  match record.LawAbandonNote with
  | some s => !(trimJs s).isEmpty
  | none => false

/-- `record.LawEffectiveDate?.trim() === '99991231'`. -/
def effectiveDateIsSentinel (record : OpenApiLawRecord) : Bool :=
  match record.LawEffectiveDate with
  | some s => decide (trimJs s = sentinelDate)
  | none => false

/-- Source `deriveStatus`, with the runtime's current date passed
explicitly as a (year, month, day) triple (`new Date()` truncated to
day granularity). -/
def deriveStatus (record : OpenApiLawRecord) (today : Nat × Nat × Nat) : LawStatus :=
  if abandonNoteTruthy record then
    .repealed
  else if effectiveDateIsSentinel record then
    .amended
  else
    match parseDate record.LawEffectiveDate with
    | some d => if dateLt today d then .not_yet_in_force else .in_force
    | none => .in_force

/-- `(?:-[0-9]+)*` after the leading digit run of
`ARTICLE_NUMBER_REGEX = /第\s*([0-9]+(?:-[0-9]+)*)\s*條/`: greedily
consume `-digits` groups.  (Backtracking to fewer groups can never
rescue a failed match, because the character after a shorter capture is
`-`, which matches neither `\s` nor `條`.)  Returns the captured
extension and the remainder.  `fuel` only bounds recursion; any
`fuel ≥ l.length` gives the true result. -/
def dashGroups : Nat → List Char → List Char × List Char
  | 0, l => ([], l)
  | fuel + 1, l =>
    match l with
    | '-' :: rest =>
      let run := rest.takeWhile isDigitCh
      if run.isEmpty then ([], l)
      else
        let (ext, fin) := dashGroups fuel (rest.dropWhile isDigitCh)
        ('-' :: run ++ ext, fin)
    | _ => ([], l)

/-- Match `ARTICLE_NUMBER_REGEX` anchored at the head of the list,
returning the capture group. -/
def matchArticleNoAt (cs : List Char) : Option (List Char) :=
  match cs with
  | '第' :: rest =>
    let r1 := rest.dropWhile jsWs
    let run := r1.takeWhile isDigitCh
    if run.isEmpty then none
    else
      let r2 := r1.dropWhile isDigitCh
      let (ext, r3) := dashGroups r2.length r2
      match r3.dropWhile jsWs with
      | '條' :: _ => some (run ++ ext)
      | _ => none
  | _ => none

/-- `articleNo.match(ARTICLE_NUMBER_REGEX)?.[1]`: first position at
which the pattern matches. -/
def findArticleNo : List Char → Option (List Char)
  | [] => none
  | c :: rest =>
    match matchArticleNoAt (c :: rest) with
    | some cap => some cap
    | none => findArticleNo rest

/-- Source `parseSection`.  The fallback
`.replace(/\s+/g, '').replace(/[^0-9-]/g, '')` keeps exactly the digits
and hyphens (whitespace is removed by the second replace as well). -/
def parseSection (articleNo : List Char) (ordinal : Nat) : List Char :=
  match findArticleNo articleNo with
  | some direct => direct
  | none =>
    let fallback := articleNo.filter (fun c => isDigitCh c || c = '-')
    if !fallback.isEmpty then fallback
    else (Nat.repr (ordinal + 1)).data

/-- Characters kept by `` `art${section}`.replace(/[^0-9A-Za-z-]/g, '') ``. -/
def refCharOk (c : Char) : Bool := isAlphaNumCh c || c = '-'

/-- The Chinese-numeral class `[一二三四五六七八九十百千]`. -/
def isNumeralCh (c : Char) : Bool :=
  ("一二三四五六七八九十百千".data).contains c

/-- Match the enumerated-clause header
`[一二三四五六七八九十百千]+、\s*([^：\n]+)：` anchored at the head,
returning the captured term and the remainder after the full-width
colon, with JavaScript backtracking semantics.

After `、`, the greedy `\s*` first takes the maximal whitespace run
`w` (which may span newlines, since `\s` includes `\n`); the greedy
`[^：\n]+` then takes the maximal run `term` of the remainder.

* If `term` is non-empty, the match succeeds iff the run ends at `：`.
  (It cannot be rescued by backtracking: shortening the run never
  exposes a `：` earlier, and when it ends at `\n` giving whitespace
  back from `w` only prepends characters to a run that still ends at
  the same `\n`.)
* If `term` is empty — i.e. `、\s*` is followed directly by `：`,
  because all `\n`s were eaten by `\s*` — the engine backtracks the
  greedy `\s*` by one character, and `[^：\n]+` captures that single
  whitespace character as a whitespace-only term, provided `w` is
  non-empty and its last character is not `\n` (which the class
  excludes).  Such matches are later discarded by the empty-term check
  but still consume their definition bodies and satisfy the lookahead. -/
def matchTermAt (cs : List Char) : Option (List Char × List Char) :=
  let nums := cs.takeWhile isNumeralCh
  if nums.isEmpty then none
  else
    match cs.dropWhile isNumeralCh with
    | '、' :: r1 =>
      let w := r1.takeWhile jsWs
      let r2 := r1.dropWhile jsWs
      let term := r2.takeWhile (fun c => !(c = '：' || c = '\n'))
      if term.isEmpty then
        match r2 with
        | '：' :: r3 =>
          match w.getLast? with
          | some c => if c = '\n' then none else some ([c], r3)
          | none => none
        | _ => none
      else
        match r2.dropWhile (fun c => !(c = '：' || c = '\n')) with
        | '：' :: r3 => some (term, r3)
        | _ => none
    | _ => none

/-- The lazy group `([\s\S]*?)` of `SECTION_ENUM_REGEX` extends to the
first position where the lookahead
`(?=(?:\n|\s)[一二三四五六七八九十百千]+、\s*[^：\n]+：|$)` holds:
split the list at that position.  `fuel ≥ l.length` gives the true
result. -/
def splitDefGo : Nat → List Char → List Char → List Char × List Char
  | _, acc, [] => (acc.reverse, [])
  | 0, acc, l => (acc.reverse, l)
  | fuel + 1, acc, c :: rest =>
    if jsWs c && (matchTermAt rest).isSome then (acc.reverse, c :: rest)
    else splitDefGo fuel (c :: acc) rest

/-- Match the whole `SECTION_ENUM_REGEX` anchored at the head,
returning (term, definition, remainder after the match).  The greedy
`\s*` after `：` runs first; the lazy body then always succeeds because
`$` is an admissible lookahead. -/
def matchClauseAt (cs : List Char) : Option (List Char × List Char × List Char) :=
  match matchTermAt cs with
  | none => none
  | some (term, r3) =>
    let r4 := r3.dropWhile jsWs
    let (defPart, rest) := splitDefGo (r4.length + 1) [] r4
    some (term, defPart, rest)

/-- `SECTION_ENUM_REGEX.exec`: first position at which the clause
pattern matches. -/
def findClause : List Char → Option (List Char × List Char × List Char)
  | [] => none
  | c :: rest =>
    match matchClauseAt (c :: rest) with
    | some r => some r
    | none => findClause rest

/-- The `while ((match = SECTION_ENUM_REGEX.exec(...)))` loop: collect
(raw term, raw definition) pairs, resuming after each match.  Each
match consumes at least four characters, so `fuel ≥ length` is never
exhausted. -/
def execLoopGo : Nat → List Char → List (List Char × List Char)
  | 0, _ => []
  | fuel + 1, cs =>
    match findClause cs with
    | none => []
    | some (t, d, rest) => (t, d) :: execLoopGo fuel rest

/-- All raw (term, definition) captures of `SECTION_ENUM_REGEX` over
the content, in match order. -/
def enumPairs (content : List Char) : List (List Char × List Char) :=
  execLoopGo (content.length + 1) content

structure ParsedDefinition where
  term : List Char
  definition : List Char
  source_provision : List Char
deriving DecidableEq

/-- The dedup key `` `${term}::${definition}` ``. -/
def defKey (term defn : List Char) : List Char :=
  term ++ "::".data ++ defn

/-- The body of `extractDefinitions`' loop: normalize both captures,
drop empty ones, and drop any pair whose key string was already seen. -/
def defsDedup (src : List Char) :
    List (List Char × List Char) → List (List Char) → List ParsedDefinition
  | [], _ => []
  | (t, d) :: rest, seen =>
    if (normalizeLooseWhitespace t).isEmpty || (normalizeLooseWhitespace d).isEmpty then
      defsDedup src rest seen
    else if seen.contains
        (defKey (normalizeLooseWhitespace t) (normalizeLooseWhitespace d)) then
      defsDedup src rest seen
    else
      ⟨normalizeLooseWhitespace t, normalizeLooseWhitespace d, src⟩ ::
        defsDedup src rest
          (defKey (normalizeLooseWhitespace t) (normalizeLooseWhitespace d) :: seen)

/-- The trigger phrase for definition extraction. -/
def defTrigger : List Char := "定義如下".data

/-- Source `extractDefinitions`. -/
def extractDefinitions (articleContent : List Char) (sourceProvision : List Char) :
    List ParsedDefinition :=
  if containsSeq articleContent defTrigger then
    defsDedup sourceProvision (enumPairs articleContent) []
  else []

structure TargetLawConfig where
  id : List Char
  pcode : List Char
  shortName : List Char
  fileName : List Char
deriving DecidableEq

/-- `ParsedProvision`.  The source field `section` is called
`sectionNo` here because `section` is a Lean keyword. -/
structure ParsedProvision where
  provision_ref : List Char
  sectionNo : List Char
  title : List Char
  content : List Char
deriving DecidableEq

/-- `ParsedAct`.  The source field `type` (fixed `'statute'`) is called
`typeTag` here. -/
structure ParsedAct where
  id : List Char
  typeTag : List Char
  title : List Char
  title_en : List Char
  short_name : List Char
  status : LawStatus
  issued_date : Option (List Char)
  in_force_date : Option (List Char)
  url : List Char
  description : List Char
  provisions : List ParsedProvision
  definitions : List ParsedDefinition
deriving DecidableEq

/-- `provisionRefCount.get(rawRef) ?? 0` over an association list. -/
def lookupCount (counts : List (List Char × Nat)) (k : List Char) : Nat :=
  match counts.find? (fun p => p.1 = k) with
  | some p => p.2
  | none => 0

/-- `provisionRefCount.set(rawRef, seen + 1)`. -/
def setCount : List (List Char × Nat) → List Char → Nat → List (List Char × Nat)
  | [], k, v => [(k, v)]
  | p :: rest, k, v => if p.1 = k then (k, v) :: rest else p :: setCount rest k v

/-- `第 {section} 條`, the synthesized heading used when `ArticleNo`
is absent. -/
def mkSectionTitle (sect : List Char) : List Char :=
  "第 ".data ++ sect ++ " 條".data

/-- The `for` loop of `parseLawToSeed` over the type-"A" articles:
`i` is the loop index, `counts` the `provisionRefCount` map.  Note the
ref counter is bumped *before* the empty-content `continue`. -/
def seedLoop :
    List OpenApiLawArticle → Nat → List (List Char × Nat) →
    List ParsedProvision × List ParsedDefinition
  | [], _, _ => ([], [])
  | article :: rest, i, counts =>
    let sect := parseSection (article.ArticleNo.getD []) i
    let rawRef := ("art".data ++ sect).filter refCharOk
    let seen := lookupCount counts rawRef
    let counts2 := setCount counts rawRef (seen + 1)
    let provisionRef :=
      if seen = 0 then rawRef else rawRef ++ '-' :: (Nat.repr (seen + 1)).data
    let content := normalizeText (article.ArticleContent.getD [])
    if content.isEmpty then seedLoop rest (i + 1) counts2
    else
      let pr := seedLoop rest (i + 1) counts2
      (⟨provisionRef, sect,
        normalizeLooseWhitespace (article.ArticleNo.getD (mkSectionTitle sect)),
        content⟩ :: pr.1,
       extractDefinitions content provisionRef ++ pr.2)

/-- Source `parseLawToSeed`, with `today` passed explicitly for the
status derivation. -/
def parseLawToSeed (record : OpenApiLawRecord) (target : TargetLawConfig)
    (today : Nat × Nat × Nat) : ParsedAct :=
  let articleRows := record.LawArticles.filter (fun a => a.ArticleType = "A".data)
  let pr := seedLoop articleRows 0 []
  let provisions := pr.1
  let definitions := pr.2
  let issuedDate := parseDateToIso record.LawModifiedDate
  let inForceDate :=
    if effectiveDateIsSentinel record then none
    else parseDateToIso record.LawEffectiveDate
  let categoryPart : List (List Char) :=
    match record.LawCategory with
    | some c => if c.isEmpty then [] else ["Category: ".data ++ c ++ ".".data]
    | none => []
  let descriptionParts :=
    ["Official legislation text from Taiwan Laws & Regulations Database.".data] ++
    categoryPart ++
    ["Articles extracted: ".data ++ (Nat.repr provisions.length).data ++ ".".data]
  { id := target.id
    typeTag := "statute".data
    title := record.LawName
    title_en :=
      match record.EngLawName with
      | some s => if (trimJs s).isEmpty then record.LawName else trimJs s
      | none => record.LawName
    short_name := target.shortName
    status := deriveStatus record today
    issued_date := issuedDate
    in_force_date := inForceDate
    url := record.LawURL
    description := List.intercalate [' '] descriptionParts
    provisions := provisions
    definitions := definitions }

/-- Strip `needle` from the head of `hay` up to ASCII case, returning
the remainder (for the `/i` flag on `pcode=`). -/
def stripCaseless : List Char → List Char → Option (List Char)
  | hay, [] => some hay
  | [], _ :: _ => none
  | c :: cs, d :: ds =>
    if asciiToLower c = asciiToLower d then stripCaseless cs ds else none

/-- Match `/[?&]pcode=([A-Z0-9]+)/i` anchored at the head, returning
the capture upper-cased (`match?.[1]?.toUpperCase()`). -/
def matchPcodeAt (cs : List Char) : Option (List Char) :=
  match cs with
  | c :: rest =>
    if c = '?' || c = '&' then
      match stripCaseless rest "pcode=".data with
      | some r2 =>
        let run := r2.takeWhile isAlphaNumCh
        if run.isEmpty then none else some (run.map asciiToUpper)
      | none => none
    else none
  | [] => none

/-- Source `pcodeFromLawUrl`: first position at which the pcode
pattern matches. -/
def pcodeFromLawUrl : List Char → Option (List Char)
  | [] => none
  | c :: rest =>
    match matchPcodeAt (c :: rest) with
    | some p => some p
    | none => pcodeFromLawUrl rest

/-- The curated `KEY_TARGET_LAWS` list from the ingestion script. -/
def keyTargetLaws : List TargetLawConfig :=
  [⟨"tw-pdpa".data, "I0050021".data, "PDPA".data, "01-personal-data-protection.json".data⟩,
   ⟨"tw-csma".data, "A0030297".data, "CSMA".data, "02-cybersecurity-management.json".data⟩,
   ⟨"tw-tma".data, "K0060111".data, "TMA".data, "03-telecommunications-management.json".data⟩,
   ⟨"tw-esa".data, "J0080037".data, "ESA".data, "04-electronic-signatures.json".data⟩,
   ⟨"tw-fgia".data, "I0020026".data, "FGIA".data, "05-freedom-of-government-information.json".data⟩,
   ⟨"tw-criminal-code".data, "C0000001".data, "Criminal Code".data, "06-criminal-code.json".data⟩,
   ⟨"tw-fintech-sandbox".data, "G0380254".data, "FinTech Sandbox Act".data, "07-fintech-sandbox.json".data⟩,
   ⟨"tw-trade-secrets".data, "J0080028".data, "TSA".data, "08-trade-secrets.json".data⟩,
   ⟨"tw-cssa".data, "K0060044".data, "CSSA".data, "09-communication-security-surveillance.json".data⟩,
   ⟨"tw-epia".data, "G0380237".data, "AEPI".data, "10-electronic-payment-institutions.json".data⟩]

/-- Lookup in `new Map(KEY_TARGET_LAWS.map(t => [t.pcode, t]))`: the
Map keeps the last entry written for a key. -/
def mapLookupLast (ts : List TargetLawConfig) (p : List Char) : Option TargetLawConfig :=
  ts.reverse.find? (fun t => t.pcode = p)

/-- The body of `buildTargets`' loop for one record: skip records
without an extractable pcode, emit the curated override when the pcode
matches one, otherwise synthesize a target. -/
def resolveTarget (record : OpenApiLawRecord) : Option TargetLawConfig :=
  match pcodeFromLawUrl record.LawURL with
  | none => none
  | some pcode =>
    match mapLookupLast keyTargetLaws pcode with
    | some override => some override
    | none =>
      let base :=
        match record.EngLawName with
        | some e => if (trimJs e).isEmpty then
            (if record.LawName.isEmpty then pcode else record.LawName)
          else trimJs e
        | none => if record.LawName.isEmpty then pcode else record.LawName
      some ⟨"tw-".data ++ pcode.map asciiToLower, pcode, base.take 80,
            pcode.map asciiToLower ++ ".json".data⟩

/-- Case-insensitive lexicographic order on the sort keys, modelling
`a.pcode.localeCompare(b.pcode, 'en', { sensitivity: 'base' }) ≤ 0`
for the upper-case alphanumeric pcodes this code compares. -/
def lexLe : List Char → List Char → Bool
  | [], _ => true
  | _ :: _, [] => false
  | a :: as, b :: bs =>
    if a.toNat < b.toNat then true
    else if b.toNat < a.toNat then false
    else lexLe as bs

/-- The case-folded sort key of a target. -/
def pcodeKey (t : TargetLawConfig) : List Char :=
  t.pcode.map asciiToLower

/-- Stable insertion of one element into a (sorted) list: `x` goes in
front of the first element it compares `≤` to, preserving the original
relative order of equal keys — the observable behaviour of V8's stable
`Array.prototype.sort` with this comparator. -/
def insertTarget (x : TargetLawConfig) : List TargetLawConfig → List TargetLawConfig
  | [] => [x]
  | y :: ys =>
    if lexLe (pcodeKey x) (pcodeKey y) then x :: y :: ys
    else y :: insertTarget x ys

/-- `targets.sort(...)` as a stable insertion sort. -/
def sortTargets : List TargetLawConfig → List TargetLawConfig
  | [] => []
  | x :: xs => insertTarget x (sortTargets xs)

/-- Source `buildTargets` from the two-dataset ingestion script
(records already merged in dataset order). -/
def buildTargets (records : List OpenApiLawRecord) (fullCorpus : Bool) :
    List TargetLawConfig :=
  if !fullCorpus then keyTargetLaws
  else sortTargets (records.filterMap resolveTarget)

/-- One HTTP attempt's outcome as observed by `fetchBinaryWithRateLimit`:
either a response (status and body) or a thrown network-level error. -/
inductive AttemptOutcome where
  | response (status : Nat) (body : List Char)
  | netError (msg : List Char)
deriving DecidableEq

/-- The retry loop's outcome: the value returned inside the loop (if
any), the backoff sleeps performed (in milliseconds, in order), and the
final `lastError`. -/
structure LoopResult where
  returned : Option (Nat × List Char)
  delays : List Nat
  lastErr : Option (List Char)
deriving DecidableEq

/-- The `for (attempt = 0; attempt <= maxRetries; ...)` loop of
`fetchBinaryWithRateLimit`, with `remaining = maxRetries - attempt`
(so `attempt < maxRetries` iff `remaining > 0`).  A 429/5xx response
before the last attempt sleeps `2^(attempt+1) * 1000` ms and retries;
any response on the last attempt is returned as-is; a network error on
the last attempt ends the loop without a return value. -/
def loopGo (oracle : Nat → AttemptOutcome) :
    Nat → Nat → Option (List Char) → LoopResult
  | 0, attempt, lastErr =>
    match oracle attempt with
    | .response st body => ⟨some (st, body), [], lastErr⟩
    | .netError e => ⟨none, [], some e⟩
  | remaining + 1, attempt, lastErr =>
    match oracle attempt with
    | .response st body =>
      if st = 429 ∨ 500 ≤ st then
        let r := loopGo oracle remaining (attempt + 1) lastErr
        ⟨r.returned, 2 ^ (attempt + 1) * 1000 :: r.delays, r.lastErr⟩
      else ⟨some (st, body), [], lastErr⟩
    | .netError e =>
      let r := loopGo oracle remaining (attempt + 1) (some e)
      ⟨r.returned, 2 ^ (attempt + 1) * 1000 :: r.delays, r.lastErr⟩

/-- A whole run of `fetchBinaryWithRateLimit`: its result (or the
`FetchError` message), its backoff delays, and whether the external
`curl` fallback was invoked. -/
structure FetchRun where
  result : Except (List Char) (Nat × List Char)
  delays : List Nat
  usedFallback : Bool

/-- Source `fetchBinaryWithRateLimit`, as a pure function of the
per-attempt network behaviour `oracle` and the external `curl`
fallback's outcome.  The global pacing wait does not affect any output
and is not modelled.  The fallback runs exactly when the loop finishes
without returning; on fallback success curl's bytes are returned with
status 200; on fallback failure the thrown error wraps the curl error
(which became `lastError`). -/
def fetchBinaryWithRateLimit (url : List Char) (oracle : Nat → AttemptOutcome)
    (curl : Except (List Char) (List Char)) (maxRetries : Nat) : FetchRun :=
  let r := loopGo oracle maxRetries 0 none
  match r.returned with
  | some (st, body) => ⟨.ok (st, body), r.delays, false⟩
  | none =>
    match curl with
    | .ok body => ⟨.ok (200, body), r.delays, true⟩
    | .error msg =>
      ⟨.error ("Failed to fetch ".data ++ url ++ " after ".data ++
               (Nat.repr maxRetries).data ++ " retries: ".data ++ msg),
       r.delays, true⟩

/-- The outcomes on which the loop continues to the next attempt (when
one remains): a retryable HTTP status or a network-level error. -/
def outcomeRetryable : AttemptOutcome → Bool
  | .response st _ => decide (st = 429 ∨ 500 ≤ st)
  | .netError _ => true

/-- The outcome is a network-level error. -/
def outcomeIsNetError : AttemptOutcome → Bool
  | .response _ _ => false
  | .netError _ => true

/-- The backoff sleeps (in milliseconds) for `n` consecutive retries
whose first retried attempt is `attempt`: `2^(attempt+1) * 1000`, then
`2^(attempt+2) * 1000`, and so on. -/
def backoffs (attempt : Nat) : Nat → List Nat
  | 0 => []
  | n + 1 => 2 ^ (attempt + 1) * 1000 :: backoffs (attempt + 1) n

/-- How many retries the loop performs starting at attempt `attempt`
with `remaining` retries of budget left: it retries exactly while the
current attempt's outcome is retryable (HTTP 429/5xx response or a
network-level error) and budget remains. -/
def retryCount (oracle : Nat → AttemptOutcome) : Nat → Nat → Nat
  | 0, _ => 0
  | r + 1, attempt =>
    if outcomeRetryable (oracle attempt) then
      retryCount oracle r (attempt + 1) + 1
    else 0

/-- An endpoint answering 429, then 503, then a network-level error,
then 200: one retryable outcome of each kind before success. -/
def oracleMix : Nat → AttemptOutcome := fun n =>
  if n = 0 then .response 429 []
  else if n = 1 then .response 503 []
  else if n = 2 then .netError "reset".data
  else .response 200 "okbody".data

/-! ### Spec-side definitions for claim C3 (refinement comparison)

These two definitions follow the *claim's words*, not the source, so
that the claim can be compared against the code's `deriveStatus`. -/

/-- The claim's date validation: 8 digits, year ≥ 1900, month 1–12,
day 1–31 — with no check that the day exists in that month. -/
def specDateClaimC3 (raw : Option (List Char)) : Option (Nat × Nat × Nat) :=
  match raw with
  | none => none
  | some s =>
    let t := trimJs s
    if t.length = 8 ∧ t.all isDigitCh then
      let y := digitsToNat (t.take 4)
      let m := digitsToNat ((t.drop 4).take 2)
      let d := digitsToNat ((t.drop 6).take 2)
      if 1900 ≤ y ∧ 1 ≤ m ∧ m ≤ 12 ∧ 1 ≤ d ∧ d ≤ 31 then some (y, m, d)
      else none
    else none

/-- The amended date validation: as the claim, but the day must also
exist in the given month (Gregorian month lengths, leap-aware) — the
extra constraint V8's `Date` parser imposes. -/
def specDateAmendedC3 (raw : Option (List Char)) : Option (Nat × Nat × Nat) :=
  match raw with
  | none => none
  | some s =>
    let t := trimJs s
    if t.length = 8 ∧ t.all isDigitCh then
      let y := digitsToNat (t.take 4)
      let m := digitsToNat ((t.drop 4).take 2)
      let d := digitsToNat ((t.drop 6).take 2)
      if 1900 ≤ y ∧ 1 ≤ m ∧ m ≤ 12 ∧ 1 ≤ d ∧ d ≤ daysInMonth y m then
        some (y, m, d)
      else none
    else none

/-- Status derivation exactly as claim C3 words it: abandonment note ⇒
repealed; sentinel ⇒ amended; valid (day 1–31) future date ⇒
not_yet_in_force; else in_force. -/
def specStatusClaimC3 (record : OpenApiLawRecord) (today : Nat × Nat × Nat) :
    LawStatus :=
  if abandonNoteTruthy record then .repealed
  else if effectiveDateIsSentinel record then .amended
  else
    match specDateClaimC3 record.LawEffectiveDate with
    | some d => if dateLt today d then .not_yet_in_force else .in_force
    | none => .in_force

/-- Status derivation as amended: the effective date must be an actual
calendar date (day within the month's true length) to count. -/
def specStatusAmendedC3 (record : OpenApiLawRecord) (today : Nat × Nat × Nat) :
    LawStatus :=
  if abandonNoteTruthy record then .repealed
  else if effectiveDateIsSentinel record then .amended
  else
    match specDateAmendedC3 record.LawEffectiveDate with
    | some d => if dateLt today d then .not_yet_in_force else .in_force
    | none => .in_force

/-! ### Concrete inputs used by scenario conjuncts, counterexamples and
witnesses -/

/-- A fixed "current date" for the scenario checks. -/
def today0 : Nat × Nat × Nat := (2026, 10, 11)

def tgt0 : TargetLawConfig :=
  ⟨"tw-test".data, "Z1234567".data, "Test".data, "z1234567.json".data⟩

/-- A type-"A" article from a heading and a content string. -/
def mkArticleA (no content : List Char) : OpenApiLawArticle :=
  ⟨"A".data, some no, some content⟩

/-- A record with the given effective date / abandonment note and no
articles. -/
def mkDateRecord (eff : Option (List Char)) (abandon : Option (List Char)) :
    OpenApiLawRecord :=
  ⟨"測試法".data, none, "http://example".data, none, none, eff, none, abandon, []⟩

/-- Three articles headed 第 1 條, 第 1 條, 第 1-2 條: the second gets
suffix `-2`, which textually collides with the third's base ref. -/
def recCollide : OpenApiLawRecord :=
  ⟨"測試法".data, none, "http://example".data, none, none, none, none, none,
   [mkArticleA "第 1 條".data "甲".data,
    mkArticleA "第 1 條".data "乙".data,
    mkArticleA "第 1-2 條".data "丙".data]⟩

/-- One article whose heading is present but all whitespace. -/
def recBlankHeading : OpenApiLawRecord :=
  ⟨"測試法".data, none, "http://example".data, none, none, none, none, none,
   [mkArticleA "   ".data "內容".data]⟩

/-- One article whose heading field is absent. -/
def recNoHeading : OpenApiLawRecord :=
  ⟨"測試法".data, none, "http://example".data, none, none, none, none, none,
   [⟨"A".data, none, some "內容".data⟩]⟩

/-- A record whose single article contains the definition trigger and
two enumerated definition clauses. -/
def defContent : List Char :=
  "本法用詞，定義如下：\n一、個人資料：指自然人之姓名。\n二、處理：指蒐集個人資料。".data

def recDefs : OpenApiLawRecord :=
  ⟨"測試法".data, none, "http://example".data, none, none, none, none, none,
   [mkArticleA "第 2 條".data defContent]⟩

/-- Enumerated clauses whose distinct (term, definition) pairs share the
joined dedup key `a::b::c`. -/
def collContent : List Char := "定義如下：一、a：b::c\n二、a::b：c".data

/-- Content whose middle clause captures a whitespace-only term (the
`\s*` backtracking case of `matchTermAt`): that clause is discarded by
the empty-term check but still consumes its body, so only ("a", "b")
and ("t", "d") survive. -/
def wsTermContent : List Char := "定義如下：一、a：b\n二、 ：c\n三、t：d".data

/-- Content whose single whitespace-term clause swallows the remainder
of the text (no whitespace precedes the later 三 clause, so the
body-terminating lookahead never fires), leaving nothing extracted. -/
def wsTermSwallow : List Char := "定義如下：一、 ：x三、t：d".data

/-- A record whose pcode Z1234567 matches no curated entry. -/
def recZ : OpenApiLawRecord :=
  ⟨"測試法".data, none,
   "https://law.moj.gov.tw/LawClass/LawAll.aspx?pcode=Z1234567".data,
   none, none, none, none, none, []⟩

/-- A record whose pcode I0050021 matches the curated PDPA entry. -/
def recPdpa : OpenApiLawRecord :=
  ⟨"個人資料保護法".data, some "Personal Data Protection Act".data,
   "https://law.moj.gov.tw/LawClass/LawAll.aspx?pcode=I0050021".data,
   none, none, none, none, none, []⟩

/-- An endpoint answering 429, 429, then 200. -/
def oracle229 : Nat → AttemptOutcome := fun n =>
  if n = 0 then .response 429 [] else
  if n = 1 then .response 429 [] else .response 200 "okbody".data

/-- An endpoint that always answers 429. -/
def oracle429 : Nat → AttemptOutcome := fun _ => .response 429 "slow".data

/-- An endpoint that always fails at network level. -/
def oracleNet : Nat → AttemptOutcome := fun _ => .netError "boom".data

example : parseSection "第 1-2 條".data 5 = "1-2".data := by decide
example : parseSection "第1條".data 5 = "1".data := by decide
example : parseSection "x".data 5 = "6".data := by decide
example : parseSection "附 3 則".data 5 = "3".data := by decide

example : normalizeLooseWhitespace "  a \n b  ".data = "a b".data := by decide
example : normalizeText "x \r\ny z  ".data = "x\ny z".data := by decide
example : parseDateToIso (some "20200101".data) = some "2020-01-01".data := by decide
example : parseDateToIso (some " 2020011 ".data) = none := by decide
example : parseDate (some "20990231".data) = none := by decide
example : parseDate (some "20990101".data) = some (2099, 1, 1) := by decide

/-! ### Helper lemmas about `extractDefinitions` -/

lemma defsDedup_source (src : List Char) :
    ∀ (l : List (List Char × List Char)) (seen : List (List Char)),
      ∀ d ∈ defsDedup src l seen, d.source_provision = src := by
  intro l
  induction l with
  | nil => intro seen d hd; simp [defsDedup] at hd
  | cons p rest ih =>
    intro seen d hd
    obtain ⟨t, dfn⟩ := p
    simp only [defsDedup] at hd
    split_ifs at hd with h1 h2
    · exact ih seen d hd
    · exact ih seen d hd
    · rcases List.mem_cons.mp hd with h | h
      · subst h; rfl
      · exact ih _ d h

lemma defsDedup_nonempty (src : List Char) :
    ∀ (l : List (List Char × List Char)) (seen : List (List Char)),
      ∀ d ∈ defsDedup src l seen, d.term ≠ [] ∧ d.definition ≠ [] := by
  intro l
  induction l with
  | nil => intro seen d hd; simp [defsDedup] at hd
  | cons p rest ih =>
    intro seen d hd
    obtain ⟨t, dfn⟩ := p
    simp only [defsDedup] at hd
    split_ifs at hd with h1 h2
    · exact ih seen d hd
    · exact ih seen d hd
    · rcases List.mem_cons.mp hd with h | h
      · subst h
        simp only [Bool.or_eq_true, List.isEmpty_iff, not_or] at h1
        exact ⟨h1.1, h1.2⟩
      · exact ih _ d h

lemma defsDedup_from_pairs (src : List Char) :
    ∀ (l : List (List Char × List Char)) (seen : List (List Char)),
      ∀ d ∈ defsDedup src l seen,
        ∃ p ∈ l, d.term = normalizeLooseWhitespace p.1 ∧
          d.definition = normalizeLooseWhitespace p.2 := by
  intro l
  induction l with
  | nil => intro seen d hd; simp [defsDedup] at hd
  | cons p rest ih =>
    intro seen d hd
    obtain ⟨t, dfn⟩ := p
    simp only [defsDedup] at hd
    split_ifs at hd with h1 h2
    · obtain ⟨q, hq, hdq⟩ := ih seen d hd
      exact ⟨q, List.mem_cons_of_mem _ hq, hdq⟩
    · obtain ⟨q, hq, hdq⟩ := ih seen d hd
      exact ⟨q, List.mem_cons_of_mem _ hq, hdq⟩
    · rcases List.mem_cons.mp hd with h | h
      · subst h; exact ⟨(t, dfn), List.mem_cons_self _ _, rfl, rfl⟩
      · obtain ⟨q, hq, hdq⟩ := ih _ d h
        exact ⟨q, List.mem_cons_of_mem _ hq, hdq⟩

/-- Every key produced by `defsDedup` is fresh with respect to `seen`,
and the produced keys are pairwise distinct. -/
lemma defsDedup_keys (src : List Char) :
    ∀ (l : List (List Char × List Char)) (seen : List (List Char)),
      ((defsDedup src l seen).map (fun d => defKey d.term d.definition)).Nodup ∧
      ∀ d ∈ defsDedup src l seen, defKey d.term d.definition ∉ seen := by
  intro l
  induction l with
  | nil =>
    intro seen
    refine ⟨by simp [defsDedup], ?_⟩
    intro d hd
    simp [defsDedup] at hd
  | cons p rest ih =>
    intro seen
    obtain ⟨t, dfn⟩ := p
    constructor
    · simp only [defsDedup]
      split_ifs with h1 h2
      · exact (ih seen).1
      · exact (ih seen).1
      · simp only [List.map_cons, List.nodup_cons]
        refine ⟨?_, (ih _).1⟩
        intro hmem
        obtain ⟨d, hd, hkey⟩ := List.mem_map.mp hmem
        have := (ih _).2 d hd
        exact this (hkey ▸ List.mem_cons_self _ _)
    · intro d hd
      simp only [defsDedup] at hd
      split_ifs at hd with h1 h2
      · exact (ih seen).2 d hd
      · exact (ih seen).2 d hd
      · rcases List.mem_cons.mp hd with h | h
        · subst h
          intro hmem
          exact h2 (List.contains_iff_exists_mem_beq.mpr ⟨_, hmem, by simp⟩)
        · intro hmem
          exact (ih _).2 d h (List.mem_cons_of_mem _ hmem)

lemma extractDefinitions_source (content ref : List Char) :
    ∀ d ∈ extractDefinitions content ref, d.source_provision = ref := by
  intro d hd
  unfold extractDefinitions at hd
  split_ifs at hd with h
  · exact defsDedup_source ref _ [] d hd
  · simp at hd

lemma extractDefinitions_no_trigger (content ref : List Char)
    (h : containsSeq content defTrigger = false) :
    extractDefinitions content ref = [] := by
  unfold extractDefinitions
  simp [h]

/-! ### Helper lemmas about `seedLoop` / `parseLawToSeed` -/

lemma seedLoop_content :
    ∀ (arts : List OpenApiLawArticle) (i : Nat) (counts : List (List Char × Nat)),
      ∀ p ∈ (seedLoop arts i counts).1, p.content ≠ [] := by
  intro arts
  induction arts with
  | nil => intro i counts p hp; simp [seedLoop] at hp
  | cons a rest ih =>
    intro i counts p hp
    simp only [seedLoop] at hp
    split_ifs at hp with h hs
    · exact ih _ _ p hp
    · rcases List.mem_cons.mp hp with h' | h'
      · subst h'
        simpa [List.isEmpty_iff] using h
      · exact ih _ _ p h'
    · rcases List.mem_cons.mp hp with h' | h'
      · subst h'
        simpa [List.isEmpty_iff] using h
      · exact ih _ _ p h'

lemma seedLoop_count :
    ∀ (arts : List OpenApiLawArticle) (i : Nat) (counts : List (List Char × Nat)),
      (seedLoop arts i counts).1.length =
        (arts.filter
          (fun a => !(normalizeText (a.ArticleContent.getD [])).isEmpty)).length := by
  intro arts
  induction arts with
  | nil => intro i counts; simp [seedLoop]
  | cons a rest ih =>
    intro i counts
    simp only [seedLoop]
    by_cases h : (normalizeText (a.ArticleContent.getD [])).isEmpty
    · simp [h, ih]
    · simp only [h]
      simp [List.filter_cons, h, ih]

lemma seedLoop_source :
    ∀ (arts : List OpenApiLawArticle) (i : Nat) (counts : List (List Char × Nat)),
      ∀ d ∈ (seedLoop arts i counts).2,
        ∃ p ∈ (seedLoop arts i counts).1,
          d.source_provision = p.provision_ref := by
  intro arts
  induction arts with
  | nil => intro i counts d hd; simp [seedLoop] at hd
  | cons a rest ih =>
    intro i counts d hd
    simp only [seedLoop] at hd ⊢
    split_ifs at hd ⊢ with h hs
    · exact ih _ _ d hd
    · rcases List.mem_append.mp hd with h' | h'
      · refine ⟨_, List.mem_cons_self _ _, ?_⟩
        exact extractDefinitions_source _ _ d h'
      · obtain ⟨p, hp, hdp⟩ := ih _ _ d h'
        exact ⟨p, List.mem_cons_of_mem _ hp, hdp⟩
    · rcases List.mem_append.mp hd with h' | h'
      · refine ⟨_, List.mem_cons_self _ _, ?_⟩
        exact extractDefinitions_source _ _ d h'
      · obtain ⟨p, hp, hdp⟩ := ih _ _ d h'
        exact ⟨p, List.mem_cons_of_mem _ hp, hdp⟩

lemma seedLoop_title :
    ∀ (arts : List OpenApiLawArticle) (i : Nat) (counts : List (List Char × Nat)),
      ∀ p ∈ (seedLoop arts i counts).1,
        ∃ a ∈ arts,
          p.title = normalizeLooseWhitespace
            (a.ArticleNo.getD (mkSectionTitle p.sectionNo)) := by
  intro arts
  induction arts with
  | nil => intro i counts p hp; simp [seedLoop] at hp
  | cons a rest ih =>
    intro i counts p hp
    simp only [seedLoop] at hp
    split_ifs at hp with h hs
    · obtain ⟨a0, ha0, hpa⟩ := ih _ _ p hp
      exact ⟨a0, List.mem_cons_of_mem _ ha0, hpa⟩
    · rcases List.mem_cons.mp hp with h' | h'
      · subst h'
        exact ⟨a, List.mem_cons_self _ _, rfl⟩
      · obtain ⟨a0, ha0, hpa⟩ := ih _ _ p h'
        exact ⟨a0, List.mem_cons_of_mem _ ha0, hpa⟩
    · rcases List.mem_cons.mp hp with h' | h'
      · subst h'
        exact ⟨a, List.mem_cons_self _ _, rfl⟩
      · obtain ⟨a0, ha0, hpa⟩ := ih _ _ p h'
        exact ⟨a0, List.mem_cons_of_mem _ ha0, hpa⟩

/-! ### Helper lemmas about the fetcher loop -/

/-- The loop fails to return a value iff every attempt before the last
one is retryable (429/5xx response or network error) *and* the last
attempt is a network error.  (A response on the last attempt — even a
429/5xx one — is returned, so the fallback is not reached.) -/
lemma loopGo_returned_none_iff (oracle : Nat → AttemptOutcome) :
    ∀ (remaining attempt : Nat) (lastErr : Option (List Char)),
      (loopGo oracle remaining attempt lastErr).returned = none ↔
        ((∀ k, k < remaining → outcomeRetryable (oracle (attempt + k)) = true) ∧
         outcomeIsNetError (oracle (attempt + remaining)) = true) := by
  intro remaining
  induction remaining with
  | zero =>
    intro attempt lastErr
    cases h : oracle attempt with
    | response st body => simp [loopGo, h, outcomeIsNetError]
    | netError e => simp [loopGo, h, outcomeIsNetError]
  | succ n ih =>
    intro attempt lastErr
    cases h : oracle attempt with
    | response st body =>
      by_cases hr : st = 429 ∨ 500 ≤ st
      · simp only [loopGo, h, if_pos hr]
        rw [ih]
        constructor
        · rintro ⟨hall, hnet⟩
          refine ⟨?_, ?_⟩
          · intro k hk
            cases k with
            | zero =>
              simpa [h, outcomeRetryable] using hr
            | succ k2 =>
              have e : attempt + (k2 + 1) = attempt + 1 + k2 := by omega
              rw [e]
              exact hall k2 (by omega)
          · have e : attempt + (n + 1) = attempt + 1 + n := by omega
            rw [e]
            exact hnet
        · rintro ⟨hall, hnet⟩
          refine ⟨?_, ?_⟩
          · intro k hk
            have e : attempt + 1 + k = attempt + (k + 1) := by omega
            rw [e]
            exact hall (k + 1) (by omega)
          · have e : attempt + 1 + n = attempt + (n + 1) := by omega
            rw [e]
            exact hnet
      · simp only [loopGo, h, if_neg hr]
        constructor
        · intro hc
          exact absurd hc (by simp)
        · rintro ⟨hall, _⟩
          have h0 := hall 0 (by omega)
          rw [Nat.add_zero, h] at h0
          simp [outcomeRetryable, hr] at h0
    | netError e =>
      simp only [loopGo, h]
      rw [ih]
      constructor
      · rintro ⟨hall, hnet⟩
        refine ⟨?_, ?_⟩
        · intro k hk
          cases k with
          | zero =>
            simp [h, outcomeRetryable]
          | succ k2 =>
            have e2 : attempt + (k2 + 1) = attempt + 1 + k2 := by omega
            rw [e2]
            exact hall k2 (by omega)
        · have e2 : attempt + (n + 1) = attempt + 1 + n := by omega
          rw [e2]
          exact hnet
      · rintro ⟨hall, hnet⟩
        refine ⟨?_, ?_⟩
        · intro k hk
          have e2 : attempt + 1 + k = attempt + (k + 1) := by omega
          rw [e2]
          exact hall (k + 1) (by omega)
        · have e2 : attempt + 1 + n = attempt + (n + 1) := by omega
          rw [e2]
          exact hnet

lemma retryCount_le (oracle : Nat → AttemptOutcome) :
    ∀ (remaining attempt : Nat),
      retryCount oracle remaining attempt ≤ remaining := by
  intro remaining
  induction remaining with
  | zero => intro attempt; simp [retryCount]
  | succ n ih =>
    intro attempt
    simp only [retryCount]
    split_ifs with h
    · exact Nat.succ_le_succ (ih (attempt + 1))
    · omega

/-- Every attempt the loop slept after was retryable. -/
lemma retryCount_prefix_retryable (oracle : Nat → AttemptOutcome) :
    ∀ (remaining attempt k : Nat),
      k < retryCount oracle remaining attempt →
      outcomeRetryable (oracle (attempt + k)) = true := by
  intro remaining
  induction remaining with
  | zero => intro attempt k hk; simp [retryCount] at hk
  | succ n ih =>
    intro attempt k hk
    simp only [retryCount] at hk
    split_ifs at hk with h
    · cases k with
      | zero => simpa using h
      | succ k2 =>
        have e : attempt + (k2 + 1) = attempt + 1 + k2 := by omega
        rw [e]
        exact ih (attempt + 1) k2 (by omega)
    · omega

/-- If the loop stopped before exhausting its budget, the attempt it
stopped at was not retryable. -/
lemma retryCount_stop_not_retryable (oracle : Nat → AttemptOutcome) :
    ∀ (remaining attempt : Nat),
      retryCount oracle remaining attempt < remaining →
      outcomeRetryable
        (oracle (attempt + retryCount oracle remaining attempt)) = false := by
  intro remaining
  induction remaining with
  | zero => intro attempt h; omega
  | succ n ih =>
    intro attempt h
    by_cases hr : outcomeRetryable (oracle attempt) = true
    · simp only [retryCount, if_pos hr] at h ⊢
      have e : attempt + (retryCount oracle n (attempt + 1) + 1) =
          attempt + 1 + retryCount oracle n (attempt + 1) := by omega
      rw [e]
      exact ih (attempt + 1) (by omega)
    · have hb : outcomeRetryable (oracle attempt) = false := by
        revert hr
        cases outcomeRetryable (oracle attempt) <;> simp
      simp only [retryCount, if_neg hr]
      rw [Nat.add_zero]
      exact hb

/-- The loop's backoff sleeps are exactly `2^(attempt+1) * 1000` ms for
each consecutive retried attempt. -/
lemma loopGo_delays_eq_backoffs (oracle : Nat → AttemptOutcome) :
    ∀ (remaining attempt : Nat) (lastErr : Option (List Char)),
      (loopGo oracle remaining attempt lastErr).delays =
        backoffs attempt (retryCount oracle remaining attempt) := by
  intro remaining
  induction remaining with
  | zero =>
    intro attempt lastErr
    cases h : oracle attempt <;> simp [loopGo, h, retryCount, backoffs]
  | succ n ih =>
    intro attempt lastErr
    cases h : oracle attempt with
    | response st body =>
      by_cases hr : st = 429 ∨ 500 ≤ st
      · have hro : outcomeRetryable (oracle attempt) = true := by
          rw [h]; simp [outcomeRetryable, hr]
        simp only [loopGo, h, if_pos hr]
        simp only [retryCount]
        rw [if_pos hro]
        simp only [backoffs]
        rw [ih]
      · have hro : outcomeRetryable (oracle attempt) = false := by
          rw [h]; simp [outcomeRetryable, hr]
        simp only [loopGo, h, if_neg hr]
        simp only [retryCount]
        rw [if_neg (by simp [hro])]
        simp [backoffs]
    | netError e =>
      have hro : outcomeRetryable (oracle attempt) = true := by
        rw [h]; simp [outcomeRetryable]
      simp only [loopGo, h]
      simp only [retryCount]
      rw [if_pos hro]
      simp only [backoffs]
      rw [ih]

/-- The loop's return value is determined by the outcome of the
attempt it stops at: a response there (of any status) is returned, a
network error there ends the loop without a value. -/
lemma loopGo_returned_eq (oracle : Nat → AttemptOutcome) :
    ∀ (remaining attempt : Nat) (lastErr : Option (List Char)),
      (loopGo oracle remaining attempt lastErr).returned =
        (match oracle (attempt + retryCount oracle remaining attempt) with
         | .response st body => some (st, body)
         | .netError _ => none) := by
  intro remaining
  induction remaining with
  | zero =>
    intro attempt lastErr
    cases h : oracle attempt <;> simp [loopGo, h, retryCount]
  | succ n ih =>
    intro attempt lastErr
    cases h : oracle attempt with
    | response st body =>
      by_cases hr : st = 429 ∨ 500 ≤ st
      · have hro : outcomeRetryable (oracle attempt) = true := by
          rw [h]; simp [outcomeRetryable, hr]
        simp only [loopGo, h, if_pos hr]
        simp only [retryCount]
        rw [if_pos hro]
        have e : attempt + (retryCount oracle n (attempt + 1) + 1) =
            attempt + 1 + retryCount oracle n (attempt + 1) := by omega
        rw [e]
        exact ih (attempt + 1) lastErr
      · have hro : outcomeRetryable (oracle attempt) = false := by
          rw [h]; simp [outcomeRetryable, hr]
        simp only [loopGo, h, if_neg hr]
        simp only [retryCount]
        rw [if_neg (by simp [hro])]
        rw [Nat.add_zero, h]
    | netError e =>
      have hro : outcomeRetryable (oracle attempt) = true := by
        rw [h]; simp [outcomeRetryable]
      simp only [loopGo, h]
      simp only [retryCount]
      rw [if_pos hro]
      have e2 : attempt + (retryCount oracle n (attempt + 1) + 1) =
          attempt + 1 + retryCount oracle n (attempt + 1) := by omega
      rw [e2]
      exact ih (attempt + 1) (some e)

/-- Lifting `loopGo_returned_eq` to the whole fetch: when the stopping
attempt yields a response, that response is the result and the
fallback is not used. -/
lemma fetch_result_of_response (url : List Char)
    (oracle : Nat → AttemptOutcome) (curl : Except (List Char) (List Char))
    (maxRetries st : Nat) (body : List Char)
    (h : oracle (retryCount oracle maxRetries 0) = .response st body) :
    (fetchBinaryWithRateLimit url oracle curl maxRetries).result =
        .ok (st, body) ∧
    (fetchBinaryWithRateLimit url oracle curl maxRetries).usedFallback =
        false := by
  have hret := loopGo_returned_eq oracle maxRetries 0 none
  rw [Nat.zero_add, h] at hret
  constructor <;> simp [fetchBinaryWithRateLimit, hret]

/-- At most `remaining` backoff sleeps are performed. -/
lemma loopGo_delays_le (oracle : Nat → AttemptOutcome) :
    ∀ (remaining attempt : Nat) (lastErr : Option (List Char)),
      (loopGo oracle remaining attempt lastErr).delays.length ≤ remaining := by
  intro remaining
  induction remaining with
  | zero =>
    intro attempt lastErr
    cases h : oracle attempt <;> simp [loopGo, h]
  | succ n ih =>
    intro attempt lastErr
    cases h : oracle attempt with
    | response st body =>
      by_cases hr : st = 429 ∨ 500 ≤ st
      · simp only [loopGo, h, if_pos hr]
        have := ih (attempt + 1) lastErr
        simpa using Nat.succ_le_succ this
      · simp [loopGo, h, if_neg hr]
    | netError e =>
      simp only [loopGo, h]
      have := ih (attempt + 1) (some e)
      simpa using Nat.succ_le_succ this

/-! ### Helper lemmas about the target sort -/

lemma lexLe_total : ∀ a b : List Char, lexLe a b = true ∨ lexLe b a = true := by
  intro a
  induction a with
  | nil => intro b; left; rfl
  | cons x xs ih =>
    intro b
    cases b with
    | nil => right; rfl
    | cons y ys =>
      simp only [lexLe]
      rcases Nat.lt_trichotomy x.toNat y.toNat with h | h | h
      · left; rw [if_pos h]
      · have h1 : ¬ x.toNat < y.toNat := by omega
        have h2 : ¬ y.toNat < x.toNat := by omega
        rw [if_neg h1, if_neg h2, if_neg h2, if_neg h1]
        exact ih ys
      · right; rw [if_pos h]

lemma lexLe_trans :
    ∀ a b c : List Char, lexLe a b = true → lexLe b c = true →
      lexLe a c = true := by
  intro a
  induction a with
  | nil => intro b c _ _; rfl
  | cons x xs ih =>
    intro b c hab hbc
    cases b with
    | nil => simp [lexLe] at hab
    | cons y ys =>
      cases c with
      | nil => simp [lexLe] at hbc
      | cons z zs =>
        simp only [lexLe] at hab hbc ⊢
        by_cases hxy : x.toNat < y.toNat
        · by_cases hxz : x.toNat < z.toNat
          · rw [if_pos hxz]
          · by_cases hyz : y.toNat < z.toNat
            · omega
            · by_cases hzy : z.toNat < y.toNat
              · rw [if_neg hyz, if_pos hzy] at hbc
                exact absurd hbc (by simp)
              · omega
        · by_cases hyx : y.toNat < x.toNat
          · rw [if_neg hxy, if_pos hyx] at hab
            exact absurd hab (by simp)
          · rw [if_neg hxy, if_neg hyx] at hab
            by_cases hyz : y.toNat < z.toNat
            · have hxz : x.toNat < z.toNat := by omega
              rw [if_pos hxz]
            · by_cases hzy : z.toNat < y.toNat
              · rw [if_neg hyz, if_pos hzy] at hbc
                exact absurd hbc (by simp)
              · rw [if_neg hyz, if_neg hzy] at hbc
                have hxz : ¬ x.toNat < z.toNat := by omega
                have hzx : ¬ z.toNat < x.toNat := by omega
                rw [if_neg hxz, if_neg hzx]
                exact ih ys zs hab hbc

lemma mem_insertTarget (x z : TargetLawConfig) :
    ∀ l, z ∈ insertTarget x l ↔ z = x ∨ z ∈ l := by
  intro l
  induction l with
  | nil => simp [insertTarget]
  | cons y ys ih =>
    simp only [insertTarget]
    by_cases h : lexLe (pcodeKey x) (pcodeKey y) = true
    · rw [if_pos h]
      simp only [List.mem_cons]
    · rw [if_neg h]
      simp only [List.mem_cons, ih]
      tauto

lemma insertTarget_perm (x : TargetLawConfig) :
    ∀ l, (insertTarget x l).Perm (x :: l) := by
  intro l
  induction l with
  | nil => simp [insertTarget]
  | cons y ys ih =>
    simp only [insertTarget]
    by_cases h : lexLe (pcodeKey x) (pcodeKey y) = true
    · rw [if_pos h]
    · rw [if_neg h]
      exact (ih.cons y).trans (List.Perm.swap x y ys)

lemma sortTargets_perm : ∀ l, (sortTargets l).Perm l := by
  intro l
  induction l with
  | nil => simp [sortTargets]
  | cons x xs ih =>
    simp only [sortTargets]
    exact (insertTarget_perm x _).trans (ih.cons x)

/-- The comparator order on targets used by the sort. -/
def targetLe (a b : TargetLawConfig) : Prop :=
  lexLe (pcodeKey a) (pcodeKey b) = true

lemma pairwise_insertTarget (x : TargetLawConfig) :
    ∀ l, l.Pairwise targetLe → (insertTarget x l).Pairwise targetLe := by
  intro l
  induction l with
  | nil =>
    intro _
    simp [insertTarget]
  | cons y ys ih =>
    intro hp
    rw [List.pairwise_cons] at hp
    obtain ⟨hy, hys⟩ := hp
    simp only [insertTarget]
    by_cases hxy : lexLe (pcodeKey x) (pcodeKey y) = true
    · rw [if_pos hxy]
      refine List.pairwise_cons.mpr ⟨?_, List.pairwise_cons.mpr ⟨hy, hys⟩⟩
      intro z hz
      rcases List.mem_cons.mp hz with rfl | hz2
      · exact hxy
      · exact lexLe_trans _ _ _ hxy (hy z hz2)
    · rw [if_neg hxy]
      refine List.pairwise_cons.mpr ⟨?_, ih hys⟩
      intro z hz
      rcases (mem_insertTarget x z ys).mp hz with rfl | hz2
      · rcases lexLe_total (pcodeKey y) (pcodeKey z) with h | h
        · exact h
        · exact absurd h hxy
      · exact hy z hz2

lemma sortTargets_pairwise : ∀ l, (sortTargets l).Pairwise targetLe := by
  intro l
  induction l with
  | nil => simp [sortTargets]
  | cons x xs ih =>
    simp only [sortTargets]
    exact pairwise_insertTarget x _ ih

/-! ### Date-parsing equivalence for claim C3 -/

lemma daysInMonth_le (y m : Nat) : daysInMonth y m ≤ 31 := by
  unfold daysInMonth
  split_ifs <;> omega

lemma exists_eight (l : List Char) (h : l.length = 8) :
    ∃ c1 c2 c3 c4 c5 c6 c7 c8, l = [c1, c2, c3, c4, c5, c6, c7, c8] := by
  rcases l with _ | ⟨c1, l⟩
  · simp at h
  rcases l with _ | ⟨c2, l⟩
  · simp at h
  rcases l with _ | ⟨c3, l⟩
  · simp at h
  rcases l with _ | ⟨c4, l⟩
  · simp at h
  rcases l with _ | ⟨c5, l⟩
  · simp at h
  rcases l with _ | ⟨c6, l⟩
  · simp at h
  rcases l with _ | ⟨c7, l⟩
  · simp at h
  rcases l with _ | ⟨c8, l⟩
  · simp at h
  rcases l with _ | ⟨c9, l⟩
  · exact ⟨c1, c2, c3, c4, c5, c6, c7, c8, rfl⟩
  · simp only [List.length_cons, List.length_nil] at h
    omega

lemma take4_explicit (c1 c2 c3 c4 c5 c6 c7 c8 : Char) :
    ([c1, c2, c3, c4, c5, c6, c7, c8].take 4) = [c1, c2, c3, c4] := rfl

lemma drop4take2_explicit (c1 c2 c3 c4 c5 c6 c7 c8 : Char) :
    (([c1, c2, c3, c4, c5, c6, c7, c8].drop 4).take 2) = [c5, c6] := rfl

lemma drop6take2_explicit (c1 c2 c3 c4 c5 c6 c7 c8 : Char) :
    (([c1, c2, c3, c4, c5, c6, c7, c8].drop 6).take 2) = [c7, c8] := rfl

/-- The code's date path (`parseDateToIso` + JS `Date` validity) equals
the claim's validation amended with the true month-length bound. -/
lemma parseDate_eq_amended (raw : Option (List Char)) :
    parseDate raw = specDateAmendedC3 raw := by
  cases raw with
  | none => rfl
  | some s =>
    simp only [parseDate, parseDateToIso, specDateAmendedC3]
    by_cases hs : s = []
    · rw [if_pos hs]
      subst hs
      rfl
    · rw [if_neg hs]
      by_cases h8 : (trimJs s).length = 8 ∧ (trimJs s).all isDigitCh
      · obtain ⟨c1, c2, c3, c4, c5, c6, c7, c8, ht⟩ := exists_eight _ h8.1
        rw [ht] at h8 ⊢
        rw [if_pos h8, if_pos h8]
        rw [take4_explicit, drop4take2_explicit, drop6take2_explicit]
        simp only [List.cons_append, List.nil_append]
        by_cases hA : 1900 ≤ digitsToNat [c1, c2, c3, c4] ∧
            1 ≤ digitsToNat [c5, c6] ∧ digitsToNat [c5, c6] ≤ 12 ∧
            1 ≤ digitsToNat [c7, c8] ∧ digitsToNat [c7, c8] ≤ 31
        · rw [if_pos hA]
          simp only [jsDateFromIso]
          have hd := daysInMonth_le (digitsToNat [c1, c2, c3, c4])
            (digitsToNat [c5, c6])
          split_ifs <;> first | rfl | omega
        · rw [if_neg hA]
          have hd := daysInMonth_le (digitsToNat [c1, c2, c3, c4])
            (digitsToNat [c5, c6])
          split_ifs with h2
          · omega
          · rfl
      · rw [if_neg h8, if_neg h8]

lemma deriveStatus_eq_amended (record : OpenApiLawRecord)
    (today : Nat × Nat × Nat) :
    deriveStatus record today = specStatusAmendedC3 record today := by
  unfold deriveStatus specStatusAmendedC3
  rw [parseDate_eq_amended]

lemma fetch_delays_eq (url : List Char) (oracle : Nat → AttemptOutcome)
    (curl : Except (List Char) (List Char)) (maxRetries : Nat) :
    (fetchBinaryWithRateLimit url oracle curl maxRetries).delays =
      (loopGo oracle maxRetries 0 none).delays := by
  cases hret : (loopGo oracle maxRetries 0 none).returned with
  | some v =>
    obtain ⟨st, body⟩ := v
    simp [fetchBinaryWithRateLimit, hret]
  | none =>
    cases curl <;> simp [fetchBinaryWithRateLimit, hret]

lemma fetch_usedFallback_iff (url : List Char) (oracle : Nat → AttemptOutcome)
    (curl : Except (List Char) (List Char)) (maxRetries : Nat) :
    (fetchBinaryWithRateLimit url oracle curl maxRetries).usedFallback = true ↔
      (loopGo oracle maxRetries 0 none).returned = none := by
  cases hret : (loopGo oracle maxRetries 0 none).returned with
  | some v =>
    obtain ⟨st, body⟩ := v
    simp [fetchBinaryWithRateLimit, hret]
  | none =>
    cases curl <;> simp [fetchBinaryWithRateLimit, hret]

lemma fetch_error_iff (url : List Char) (oracle : Nat → AttemptOutcome)
    (curl : Except (List Char) (List Char)) (maxRetries : Nat) :
    (∃ msg, (fetchBinaryWithRateLimit url oracle curl maxRetries).result =
      .error msg) ↔
      ((loopGo oracle maxRetries 0 none).returned = none ∧
       ∃ e, curl = .error e) := by
  cases hret : (loopGo oracle maxRetries 0 none).returned with
  | some v =>
    obtain ⟨st, body⟩ := v
    simp [fetchBinaryWithRateLimit, hret]
  | none =>
    cases curl <;> simp [fetchBinaryWithRateLimit, hret]

/-! ### Claim theorems -/

/-- C2 (counterexample): an endpoint that answers 429 on every attempt
exhausts the in-process retries, yet `fetchBinaryWithRateLimit` does
*not* fall back to the external fetch and raises no error: the final
429 response is returned as the result.  This refutes the claim that
exhaustion "by repeated retryable HTTP 429/5xx statuses" triggers the
fallback. -/
theorem C2_claim_false_on_trailing_retryable_status :
    (fetchBinaryWithRateLimit "u".data oracle429
      (.error "curlerr".data) 3).usedFallback = false ∧
    (fetchBinaryWithRateLimit "u".data oracle429
      (.error "curlerr".data) 3).result = .ok (429, "slow".data) :=
  ⟨rfl, rfl⟩

/-- C2 (amended): the external fallback runs (exactly once) iff every
attempt before the last is retryable (HTTP 429/5xx or network error)
*and* the last attempt fails at network level; a FetchError is raised
iff the fallback runs and the external fetch also fails.  A retryable
HTTP response on the last attempt is returned without fallback. -/
theorem C2_fallback_characterization :
    ∀ (url : List Char) (oracle : Nat → AttemptOutcome)
      (curl : Except (List Char) (List Char)) (maxRetries : Nat),
      ((fetchBinaryWithRateLimit url oracle curl maxRetries).usedFallback = true ↔
        ((∀ k, k < maxRetries → outcomeRetryable (oracle k) = true) ∧
         outcomeIsNetError (oracle maxRetries) = true)) ∧
      ((∃ msg, (fetchBinaryWithRateLimit url oracle curl maxRetries).result =
          .error msg) ↔
        ((fetchBinaryWithRateLimit url oracle curl maxRetries).usedFallback = true ∧
         ∃ e, curl = .error e)) := by
  intro url oracle curl maxRetries
  have hiff := loopGo_returned_none_iff oracle maxRetries 0 none
  simp only [Nat.zero_add] at hiff
  constructor
  · rw [fetch_usedFallback_iff]
    exact hiff
  · rw [fetch_error_iff, fetch_usedFallback_iff]

/-- C2 (witness): with an endpoint failing at network level on every
attempt and a failing curl fallback, the fallback is used and a
FetchError is raised. -/
theorem C2_fallback_characterization_witness :
    (fetchBinaryWithRateLimit "u".data oracleNet
      (.error "curlerr".data) 3).usedFallback = true ∧
    (∃ msg, (fetchBinaryWithRateLimit "u".data oracleNet
      (.error "curlerr".data) 3).result = .error msg) := by
  have h := C2_fallback_characterization "u".data oracleNet (.error "curlerr".data) 3
  have hfb : (fetchBinaryWithRateLimit "u".data oracleNet
      (.error "curlerr".data) 3).usedFallback = true :=
    h.1.mpr ⟨fun k _ => rfl, rfl⟩
  exact ⟨hfb, h.2.mpr ⟨hfb, "curlerr".data, rfl⟩⟩

/-- C5: full characterization of the retry loop of
`fetchBinaryWithRateLimit`.  In general, for every URL, oracle, curl
outcome and maxRetries: the backoff sleeps are exactly
`2^(attempt+1) * 1000` ms for each consecutive retried attempt
(`backoffs 0`); at most `maxRetries` retries happen; every retried
attempt's outcome was retryable — where retryable means precisely HTTP
429, HTTP ≥ 500, or a network-level error — and if the loop stopped
with budget left, the stopping outcome was *not* retryable; a response
at the stopping attempt is returned as the result with no fallback.  A
first response with any other status is returned immediately, with no
sleeps and no fallback.  Concretely, the 429/429/200 endpoint succeeds
with the 200 body after 2000 ms and 4000 ms of backoff, and the
429/503/network-error/200 endpoint succeeds after 2000, 4000 and
8000 ms — instantiating retry on each of 429, 5xx and network-level
failure. -/
theorem C5_retry_backoff :
    ((fetchBinaryWithRateLimit "u".data oracle229
        (.error "curlerr".data) 3).result = .ok (200, "okbody".data) ∧
     (fetchBinaryWithRateLimit "u".data oracle229
        (.error "curlerr".data) 3).delays = [2000, 4000] ∧
     (fetchBinaryWithRateLimit "u".data oracle229
        (.error "curlerr".data) 3).usedFallback = false) ∧
    ((fetchBinaryWithRateLimit "u".data oracleMix
        (.error "curlerr".data) 3).result = .ok (200, "okbody".data) ∧
     (fetchBinaryWithRateLimit "u".data oracleMix
        (.error "curlerr".data) 3).delays = [2000, 4000, 8000] ∧
     (fetchBinaryWithRateLimit "u".data oracleMix
        (.error "curlerr".data) 3).usedFallback = false) ∧
    (∀ (st : Nat) (body : List Char),
        outcomeRetryable (.response st body) =
          decide (st = 429 ∨ 500 ≤ st)) ∧
    (∀ e : List Char, outcomeRetryable (.netError e) = true) ∧
    (∀ (url : List Char) (oracle : Nat → AttemptOutcome)
       (curl : Except (List Char) (List Char)) (maxRetries : Nat),
       (fetchBinaryWithRateLimit url oracle curl maxRetries).delays =
           backoffs 0 (retryCount oracle maxRetries 0) ∧
       retryCount oracle maxRetries 0 ≤ maxRetries ∧
       (∀ k, k < retryCount oracle maxRetries 0 →
           outcomeRetryable (oracle k) = true) ∧
       (retryCount oracle maxRetries 0 < maxRetries →
           outcomeRetryable (oracle (retryCount oracle maxRetries 0)) =
             false) ∧
       (∀ (st : Nat) (body : List Char),
           oracle (retryCount oracle maxRetries 0) = .response st body →
           (fetchBinaryWithRateLimit url oracle curl maxRetries).result =
               .ok (st, body) ∧
           (fetchBinaryWithRateLimit url oracle curl
               maxRetries).usedFallback = false)) ∧
    (∀ (url : List Char) (oracle : Nat → AttemptOutcome)
       (curl : Except (List Char) (List Char)) (maxRetries st : Nat)
       (body : List Char),
       oracle 0 = .response st body → ¬(st = 429 ∨ 500 ≤ st) →
       (fetchBinaryWithRateLimit url oracle curl maxRetries).result =
           .ok (st, body) ∧
       (fetchBinaryWithRateLimit url oracle curl maxRetries).delays = [] ∧
       (fetchBinaryWithRateLimit url oracle curl maxRetries).usedFallback =
           false) := by
  refine ⟨⟨rfl, rfl, rfl⟩, ⟨rfl, rfl, rfl⟩, fun st body => rfl, fun e => rfl,
    ?_, ?_⟩
  · intro url oracle curl maxRetries
    refine ⟨?_, retryCount_le oracle maxRetries 0, ?_, ?_, ?_⟩
    · rw [fetch_delays_eq]
      exact loopGo_delays_eq_backoffs oracle maxRetries 0 none
    · intro k hk
      have := retryCount_prefix_retryable oracle maxRetries 0 k hk
      simpa using this
    · intro hlt
      have := retryCount_stop_not_retryable oracle maxRetries 0 hlt
      simpa using this
    · intro st body h
      exact fetch_result_of_response url oracle curl maxRetries st body h
  · intro url oracle curl maxRetries st body h0 hnr
    cases maxRetries with
    | zero => simp [fetchBinaryWithRateLimit, loopGo, h0]
    | succ n => simp [fetchBinaryWithRateLimit, loopGo, h0, hnr]

/-- C5 (witness): the general characterization instantiated — the
first 429 of the 429/429/200 endpoint was retryable, its stopping
attempt's 200 response is the result with no fallback, and an
always-404 endpoint is returned immediately with no sleeps. -/
theorem C5_retry_backoff_witness :
    outcomeRetryable (oracle229 0) = true ∧
    ((fetchBinaryWithRateLimit "u".data oracle229
        (.error "curlerr".data) 3).result = .ok (200, "okbody".data) ∧
     (fetchBinaryWithRateLimit "u".data oracle229
        (.error "curlerr".data) 3).usedFallback = false) ∧
    ((fetchBinaryWithRateLimit "u".data (fun _ => .response 404 "nf".data)
        (.error "curlerr".data) 3).result = .ok (404, "nf".data) ∧
     (fetchBinaryWithRateLimit "u".data (fun _ => .response 404 "nf".data)
        (.error "curlerr".data) 3).delays = [] ∧
     (fetchBinaryWithRateLimit "u".data (fun _ => .response 404 "nf".data)
        (.error "curlerr".data) 3).usedFallback = false) := by
  refine ⟨?_, ?_, ?_⟩
  · exact (C5_retry_backoff.2.2.2.2.1 "u".data oracle229
      (.error "curlerr".data) 3).2.2.1 0 (by decide)
  · exact (C5_retry_backoff.2.2.2.2.1 "u".data oracle229
      (.error "curlerr".data) 3).2.2.2.2 200 "okbody".data (by decide)
  · exact C5_retry_backoff.2.2.2.2.2 "u".data (fun _ => .response 404 "nf".data)
      (.error "curlerr".data) 3 404 "nf".data rfl (by decide)

/-- C1 (code bug): `parseLawToSeed` does not keep provision_refs
pairwise distinct.  A record with sections 1, 1, 1-2 (headings
第 1 條, 第 1 條, 第 1-2 條, all with non-empty content) yields refs
`art1`, `art1-2`, `art1-2`: the collision suffix `-2` of the duplicated
section 1 coincides textually with the base ref of section 1-2. -/
theorem C1_duplicate_provision_ref_on_section_collision :
    ((parseLawToSeed recCollide tgt0 today0).provisions.map
        (fun p => p.provision_ref)) =
      ["art1".data, "art1-2".data, "art1-2".data] ∧
    ¬ ((parseLawToSeed recCollide tgt0 today0).provisions.map
        (fun p => p.provision_ref)).Nodup :=
  ⟨by decide, by decide⟩

/-- C3 (counterexample): effective date "20990231" passes the claim's
validation (8 digits, year ≥ 1900, month 1–12, day 1–31) and is in the
future, so the claim predicts not_yet_in_force; but February has no
31st day, V8's `Date` parser rejects it, and `deriveStatus` returns
in_force. -/
theorem C3_claim_false_on_impossible_calendar_day :
    specStatusClaimC3 (mkDateRecord (some "20990231".data) none) today0 =
        .not_yet_in_force ∧
    deriveStatus (mkDateRecord (some "20990231".data) none) today0 =
        .in_force :=
  ⟨by decide, by decide⟩

/-- C3 (amended): `deriveStatus` follows the claimed priority —
abandonment note ⇒ repealed; sentinel "99991231" ⇒ amended; an
effective date that is an *actual* calendar date (8 digits,
year ≥ 1900, month 1–12, day within that month's true length) strictly
later than the current date ⇒ not_yet_in_force; else in_force — and
the four claimed scenarios hold. -/
theorem C3_status_derivation_amended :
    (∀ (record : OpenApiLawRecord) (today : Nat × Nat × Nat),
        deriveStatus record today = specStatusAmendedC3 record today) ∧
    deriveStatus (mkDateRecord (some "20200101".data) (some "廢止".data))
        today0 = .repealed ∧
    deriveStatus (mkDateRecord (some "99991231".data) none) today0 =
        .amended ∧
    deriveStatus (mkDateRecord (some "20990101".data) none) today0 =
        .not_yet_in_force ∧
    deriveStatus (mkDateRecord (some "20100101".data) none) today0 =
        .in_force :=
  ⟨deriveStatus_eq_amended, by decide, by decide, by decide, by decide⟩

/-- C4 (counterexample): two records sharing pcode Z1234567 produce
*two* targets in full-corpus mode — `buildTargets` performs no
per-pcode collapse. -/
theorem C4_claim_false_on_duplicate_pcode :
    ((buildTargets [recZ, recZ] true).map (fun t => t.pcode)) =
      ["Z1234567".data, "Z1234567".data] ∧
    ¬ ((buildTargets [recZ, recZ] true).map (fun t => t.pcode)).Nodup :=
  ⟨by decide, by decide⟩

/-- C4 (amended): in full-corpus mode every record with an extractable
pcode contributes one target (curated entry unchanged when the pcode
matches one, otherwise the synthesized id/shortName/fileName), so
duplicate pcodes yield duplicate targets; the result is sorted
ascending by case-folded pcode.  Concretely: the curated I0050021
record resolves to the tw-pdpa entry unchanged, and an unmapped
Z1234567 record resolves to id "tw-z1234567" and file
"z1234567.json". -/
theorem C4_full_corpus_resolution_amended :
    (∀ records : List OpenApiLawRecord,
        (buildTargets records true).Pairwise targetLe ∧
        (buildTargets records true).Perm (records.filterMap resolveTarget)) ∧
    buildTargets [recPdpa] true =
      [⟨"tw-pdpa".data, "I0050021".data, "PDPA".data,
        "01-personal-data-protection.json".data⟩] ∧
    buildTargets [recZ] true =
      [⟨"tw-z1234567".data, "Z1234567".data, "測試法".data,
        "z1234567.json".data⟩] := by
  refine ⟨?_, by decide, by decide⟩
  intro records
  constructor
  · simp only [buildTargets, Bool.not_true, Bool.false_eq_true, if_false]
    exact sortTargets_pairwise _
  · simp only [buildTargets, Bool.not_true, Bool.false_eq_true, if_false]
    exact sortTargets_perm _

/-- C6 (counterexample): the dedup key joins term and definition with
the string "::", so the two *distinct* pairs ("a", "b::c") and
("a::b", "c") share the key "a::b::c" and the second enumerated clause
is dropped, although the content contains the trigger and both clauses
are well-formed.  This refutes "each enumerated clause ... yields a
definition" with dedup only of equal pairs. -/
theorem C6_claim_false_on_joined_key_collision :
    enumPairs collContent =
      [("a".data, "b::c".data), ("a::b".data, "c".data)] ∧
    containsSeq collContent defTrigger = true ∧
    ((extractDefinitions collContent "art1".data).map
        (fun d => (d.term, d.definition))) = [("a".data, "b::c".data)] ∧
    ("a::b".data, "c".data) ≠ (("a".data : List Char), "b::c".data) :=
  ⟨by decide, by decide, by decide, by decide⟩

/-- C6 (amended): without the trigger phrase the extraction returns
nothing; the 個人資料/處理 example yields exactly those two definitions
referencing the owning provision; a clause whose `\s*`-backtracked
capture is whitespace-only is discarded but still consumes its
definition body (and can swallow the rest of the text when no
whitespace precedes the next clause); and in general every produced
definition has non-empty, whitespace-collapsed term and definition
taken from a matched clause, carries the owning provision ref, and the
joined keys `term ++ "::" ++ definition` are pairwise distinct (so a
distinct pair whose joined key coincides with an earlier one is also
dropped). -/
theorem C6_definition_extraction_amended :
    (∀ (content ref : List Char), containsSeq content defTrigger = false →
        extractDefinitions content ref = []) ∧
    (extractDefinitions defContent "art2".data =
      [⟨"個人資料".data, "指自然人之姓名。".data, "art2".data⟩,
       ⟨"處理".data, "指蒐集個人資料。".data, "art2".data⟩]) ∧
    (enumPairs wsTermContent =
      [("a".data, "b".data), (" ".data, "c".data), ("t".data, "d".data)]) ∧
    (extractDefinitions wsTermContent "art3".data =
      [⟨"a".data, "b".data, "art3".data⟩,
       ⟨"t".data, "d".data, "art3".data⟩]) ∧
    (enumPairs wsTermSwallow = [(" ".data, "x三、t：d".data)]) ∧
    (extractDefinitions wsTermSwallow "art4".data = []) ∧
    (∀ (content ref : List Char),
      ((extractDefinitions content ref).map
          (fun d => defKey d.term d.definition)).Nodup ∧
      ∀ d ∈ extractDefinitions content ref,
        d.term ≠ [] ∧ d.definition ≠ [] ∧ d.source_provision = ref ∧
        ∃ p ∈ enumPairs content,
          d.term = normalizeLooseWhitespace p.1 ∧
          d.definition = normalizeLooseWhitespace p.2) := by
  refine ⟨extractDefinitions_no_trigger, by decide, by decide, by decide,
    by decide, by decide, ?_⟩
  intro content ref
  constructor
  · unfold extractDefinitions
    split_ifs with h
    · exact (defsDedup_keys ref (enumPairs content) []).1
    · simp
  · intro d hd
    have h1 := extractDefinitions_source content ref d hd
    unfold extractDefinitions at hd
    split_ifs at hd with h
    · have h2 := defsDedup_nonempty ref _ [] d hd
      have h3 := defsDedup_from_pairs ref _ [] d hd
      exact ⟨h2.1, h2.2, h1, h3⟩
    · simp at hd

/-- C6 (witness): content with an enumerated-looking clause but no
trigger phrase yields no definitions. -/
theorem C6_definition_extraction_amended_witness :
    extractDefinitions "一、甲：乙".data "art9".data = [] :=
  C6_definition_extraction_amended.1 "一、甲：乙".data "art9".data (by decide)

/-- C7: a date is produced iff the (trimmed) field is exactly 8 digits
passing year ≥ 1900, month 1–12, day 1–31, and is then the ISO
`YYYY-MM-DD` assembly of those digit slices; an absent field produces
no date; the sentinel effective date never becomes an in_force_date;
and issued_date / in_force_date come from `parseDateToIso` on the
modification / effective date fields. -/
theorem C7_date_parsing :
    (∀ (raw out : List Char), parseDateToIso (some raw) = some out →
      (trimJs raw).length = 8 ∧ (trimJs raw).all isDigitCh = true ∧
      1900 ≤ digitsToNat ((trimJs raw).take 4) ∧
      1 ≤ digitsToNat (((trimJs raw).drop 4).take 2) ∧
      digitsToNat (((trimJs raw).drop 4).take 2) ≤ 12 ∧
      1 ≤ digitsToNat (((trimJs raw).drop 6).take 2) ∧
      digitsToNat (((trimJs raw).drop 6).take 2) ≤ 31 ∧
      out = (trimJs raw).take 4 ++ '-' :: ((trimJs raw).drop 4).take 2 ++
            '-' :: ((trimJs raw).drop 6).take 2) ∧
    parseDateToIso none = none ∧
    (∀ (record : OpenApiLawRecord) (target : TargetLawConfig)
       (today : Nat × Nat × Nat),
       effectiveDateIsSentinel record = true →
       (parseLawToSeed record target today).in_force_date = none) ∧
    (∀ (record : OpenApiLawRecord) (target : TargetLawConfig)
       (today : Nat × Nat × Nat),
       (parseLawToSeed record target today).issued_date =
         parseDateToIso record.LawModifiedDate ∧
       (parseLawToSeed record target today).in_force_date =
         (if effectiveDateIsSentinel record then none
          else parseDateToIso record.LawEffectiveDate)) := by
  refine ⟨?_, rfl, ?_, ?_⟩
  · intro raw out h
    simp only [parseDateToIso] at h
    split_ifs at h with h0 h8 hr
    rw [Option.some.injEq] at h
    exact ⟨h8.1, h8.2, hr.1, hr.2.1, hr.2.2.1, hr.2.2.2.1, hr.2.2.2.2,
      h.symm⟩
  · intro record target today h
    simp [parseLawToSeed, h]
  · intro record target today
    exact ⟨rfl, rfl⟩

/-- C7 (witness): the sentinel record gets no in_force_date, and
"20200101" parses (so its trimmed form is 8 characters long). -/
theorem C7_date_parsing_witness :
    (parseLawToSeed (mkDateRecord (some "99991231".data) none) tgt0
        today0).in_force_date = none ∧
    (trimJs "20200101".data).length = 8 :=
  ⟨C7_date_parsing.2.2.1 (mkDateRecord (some "99991231".data) none) tgt0
      today0 (by decide),
   (C7_date_parsing.1 "20200101".data "2020-01-01".data (by decide)).1⟩

/-- C8 (counterexample): an article whose heading is present but all
whitespace collapses to the empty title — the code only synthesizes
"第 {section} 條" when the heading field is *absent* (`??`), not when
the collapsed result is empty, so the claimed synthesized title
"第 1 條" is not produced. -/
theorem C8_claim_false_on_whitespace_heading :
    ((parseLawToSeed recBlankHeading tgt0 today0).provisions.map
        (fun p => p.title)) = [[]] ∧
    ((parseLawToSeed recBlankHeading tgt0 today0).provisions.map
        (fun p => p.sectionNo)) = ["1".data] ∧
    ([] : List Char) ≠ "第 1 條".data :=
  ⟨by decide, by decide, by decide⟩

/-- C8 (amended): every emitted provision's title is the
whitespace-collapsed heading when the heading field is present (even
when that collapse is empty); only when the heading field is absent is
the collapsed synthesized string "第 {section} 條" used — as in the
concrete absent-heading record, whose provision's title is
"第 1 條". -/
theorem C8_title_amended :
    (∀ (record : OpenApiLawRecord) (target : TargetLawConfig)
       (today : Nat × Nat × Nat),
       ∀ p ∈ (parseLawToSeed record target today).provisions,
         ∃ a ∈ record.LawArticles, a.ArticleType = "A".data ∧
           p.title = normalizeLooseWhitespace
             (a.ArticleNo.getD (mkSectionTitle p.sectionNo))) ∧
    ((parseLawToSeed recNoHeading tgt0 today0).provisions.map
        (fun p => p.title)) = ["第 1 條".data] := by
  refine ⟨?_, by decide⟩
  intro record target today p hp
  have hp2 : p ∈ (seedLoop
      (record.LawArticles.filter (fun a => a.ArticleType = "A".data)) 0 []).1 :=
    hp
  obtain ⟨a, ha, hpa⟩ := seedLoop_title _ 0 [] p hp2
  have hmem := List.mem_filter.mp ha
  exact ⟨a, hmem.1, by simpa using hmem.2, hpa⟩

/-- C8 (witness): the blank-heading record's provision instantiates the
amended title rule. -/
theorem C8_title_amended_witness :
    ∃ a ∈ recBlankHeading.LawArticles, a.ArticleType = "A".data ∧
      (⟨"art1".data, "1".data, [], "內容".data⟩ : ParsedProvision).title =
        normalizeLooseWhitespace
          (a.ArticleNo.getD (mkSectionTitle
            (⟨"art1".data, "1".data, [], "內容".data⟩ :
              ParsedProvision).sectionNo)) :=
  C8_title_amended.1 recBlankHeading tgt0 today0
    ⟨"art1".data, "1".data, [], "內容".data⟩ (by decide)

/-- C9: an article (of type "A") whose normalized content is empty
emits no provision — the provision count equals the count of type-"A"
articles with non-empty normalized content — and consequently every
provision's content is non-empty. -/
theorem C9_empty_content_dropped :
    ∀ (record : OpenApiLawRecord) (target : TargetLawConfig)
      (today : Nat × Nat × Nat),
      (parseLawToSeed record target today).provisions.length =
        ((record.LawArticles.filter
            (fun a => a.ArticleType = "A".data)).filter
          (fun a => !(normalizeText (a.ArticleContent.getD [])).isEmpty)).length ∧
      ∀ p ∈ (parseLawToSeed record target today).provisions, p.content ≠ [] := by
  intro record target today
  exact ⟨seedLoop_count _ 0 [], fun p hp => seedLoop_content _ 0 [] p hp⟩

/-- C9 (witness): the three-article record has three non-empty
provisions, and the first one's content is non-empty. -/
theorem C9_empty_content_dropped_witness :
    (parseLawToSeed recCollide tgt0 today0).provisions.length = 3 ∧
    (⟨"art1".data, "1".data, "第 1 條".data, "甲".data⟩ :
        ParsedProvision).content ≠ [] := by
  refine ⟨?_, ?_⟩
  · rw [(C9_empty_content_dropped recCollide tgt0 today0).1]
    decide
  · exact (C9_empty_content_dropped recCollide tgt0 today0).2 _ (by decide)

/-- C10: every definition in a ParsedAct references the provision_ref
of some provision of the same act. -/
theorem C10_definition_source_refs :
    ∀ (record : OpenApiLawRecord) (target : TargetLawConfig)
      (today : Nat × Nat × Nat),
      ∀ d ∈ (parseLawToSeed record target today).definitions,
        ∃ p ∈ (parseLawToSeed record target today).provisions,
          d.source_provision = p.provision_ref := by
  intro record target today d hd
  exact seedLoop_source _ 0 [] d hd

/-- C10 (witness): the 個人資料 definition of the example record
references one of its provisions. -/
theorem C10_definition_source_refs_witness :
    ∃ p ∈ (parseLawToSeed recDefs tgt0 today0).provisions,
      (⟨"個人資料".data, "指自然人之姓名。".data, "art2".data⟩ :
          ParsedDefinition).source_provision = p.provision_ref :=
  C10_definition_source_refs recDefs tgt0 today0
    ⟨"個人資料".data, "指自然人之姓名。".data, "art2".data⟩ (by decide)

end TaiwanLaw
